import Mathlib

/-!
Verification of the beehive acoustic-recording sources.

The recorder variants share one storage design: a fixed-size circular sample
store written by the audio callback, read by snapshot copies.  We embed the
circular-array variant (`Beehive_Multimodal_Acoustic_Recording--Period-Only.cpp`
`audioCallback`, and the `saveToFile` range reader of the `--Event-Only`
file), the deque variant with its polling level checker
(`Beehive_Multimodal_Acoustic_Recording.cpp`), and the C extension
`BMAR_cross_correlation.c`, and prove or refute the specified properties.
-/

namespace BMAR

/-- Sample rate constant shared by the recorder sources (192 kHz). -/
def SAMPLE_RATE : Nat := 192000

/-- Channel count constant from the recorder sources. -/
def CHANNELS : Nat := 2

/-- `BUFFER_SIZE = 400 * SAMPLE_RATE` from the Period-Only source (line 18). -/
def BUFFER_SIZE : Nat := 400 * SAMPLE_RATE

/-- Periodic save interval in seconds, from the Period-Only source (line 21). -/
def INTERVAL : Nat := 300

/-- Amplitude threshold from the main recorder source (line 17). -/
def THRESHOLD : Int := 27000

/-- State of the circular-array sample store of the Period-Only variant:
the fixed vector `buffer` and the physical write index `bufferIndex`. -/
structure RingState where
  buf : List Int
  bufferIndex : Nat
deriving DecidableEq

/-- `std::vector<int16_t> buffer(BUFFER_SIZE * CHANNELS)` value-initialises the
store to zeros, with `bufferIndex = 0` (Period-Only lines 23-24). -/
def initRing (C : Nat) : RingState :=
  ⟨List.replicate C 0, 0⟩

/-- One iteration of the callback loop (Period-Only lines 34-35):
`buffer[bufferIndex] = data[i]; bufferIndex = (bufferIndex + 1) % buffer.size();`. -/
def pushSample (st : RingState) (x : Int) : RingState :=
  ⟨st.buf.set st.bufferIndex x, (st.bufferIndex + 1) % st.buf.length⟩

/-- The body of `audioCallback` (Period-Only lines 33-36): store every sample
of the delivered block in turn. -/
def audioCallback (st : RingState) (block : List Int) : RingState :=
  block.foldl pushSample st

/-- `saveToFile(start, end)` from the Event-Only file (lines 262-276): when
`end >= start` it writes `circularBuffer[start .. end)`; otherwise it writes
the tail `[start .. BUFFER_SIZE)` followed by the head `[0 .. end)`. -/
def saveToFile (st : RingState) (start e : Nat) : List Int :=
  if start ≤ e then (st.buf.drop start).take (e - start)
  else st.buf.drop start ++ st.buf.take e

/-- The two-piece copy used to read the whole store in chronological order
(the pattern of `checkLevelThreadFunc` lines 80-81: copy from `bufferIndex`
to the end, then from the beginning up to `bufferIndex`); this is exactly the
wrap-straddling branch of `saveToFile` applied to the full buffer. -/
def snapshotLast (st : RingState) : List Int :=
  st.buf.drop st.bufferIndex ++ st.buf.take st.bufferIndex

/-- The payload of `saveAudio` (Period-Only line 82):
`sf_write_short(outfile, buffer.data(), buffer.size())` writes the whole
stored vector in physical order. -/
def saveAudioData (st : RingState) : List Int :=
  st.buf

/-- The most recent `C` samples of the stream `s`, padded at the front with
the zeros the store was value-initialised with while fewer than `C` samples
have arrived.  Characterises the chronological content of the ring. -/
def lastC (C : Nat) (s : List Int) : List Int :=
  if s.length ≤ C then List.replicate (C - s.length) 0 ++ s
  else s.drop (s.length - C)

lemma pushSample_buf_length (st : RingState) (x : Int) :
    (pushSample st x).buf.length = st.buf.length := by
  simp [pushSample]

lemma audioCallback_buf_length (block : List Int) :
    ∀ st : RingState, (audioCallback st block).buf.length = st.buf.length := by
  induction block with
  | nil => intro st; rfl
  | cons x bl ih =>
      intro st
      have h : audioCallback st (x :: bl) = audioCallback (pushSample st x) bl := rfl
      rw [h, ih, pushSample_buf_length]

lemma snapshotLast_pushSample (st : RingState) (x : Int)
    (hi : st.bufferIndex < st.buf.length) :
    snapshotLast (pushSample st x) = (snapshotLast st).drop 1 ++ [x] := by
  obtain ⟨b, i⟩ := st
  simp only [pushSample, snapshotLast] at *
  have hset : b.set i x = b.take i ++ x :: b.drop (i + 1) :=
    List.set_eq_take_cons_drop x hi
  have hlen : (b.set i x).length = b.length := by simp
  have htake : (b.take i).length = i := by
    simp [List.length_take]
    omega
  have hrhs : (b.drop i ++ b.take i).drop 1 ++ [x]
      = b.drop (i + 1) ++ b.take i ++ [x] := by
    rw [List.drop_eq_getElem_cons hi, List.cons_append]
    simp only [List.drop_succ_cons, List.drop_zero, List.append_assoc]
  rw [hrhs]
  by_cases hlt : i + 1 < b.length
  · have hidx : (i + 1) % b.length = i + 1 := Nat.mod_eq_of_lt hlt
    rw [hidx, hset]
    have hdrop : (b.take i ++ x :: b.drop (i + 1)).drop (i + 1)
        = b.drop (i + 1) := by
      rw [List.drop_append_eq_append_drop, htake]
      have h1 : (b.take i).drop (i + 1) = [] := by
        apply List.drop_eq_nil_of_le
        omega
      have h2 : i + 1 - i = 1 := by omega
      rw [h1, h2]
      simp
    have htk : (b.take i ++ x :: b.drop (i + 1)).take (i + 1)
        = b.take i ++ [x] := by
      rw [List.take_append_eq_append_take, htake]
      have h1 : (b.take i).take (i + 1) = b.take i := by
        apply List.take_of_length_le
        omega
      have h2 : i + 1 - i = 1 := by omega
      rw [h1, h2]
      simp
    rw [hdrop, htk, List.append_assoc]
  · have hie : i + 1 = b.length := by omega
    have hpos : 0 < b.length := by omega
    have hidx : (i + 1) % b.length = 0 := by
      rw [hie, Nat.mod_self]
    rw [hidx]
    simp only [List.drop_zero, List.take_zero, List.append_nil]
    rw [hset]
    have hnil : b.drop (i + 1) = [] := by
      apply List.drop_eq_nil_of_le
      omega
    rw [hnil]
    simp

lemma lastC_append (C : Nat) (hC : 0 < C) (s : List Int) (x : Int) :
    lastC C (s ++ [x]) = (lastC C s).drop 1 ++ [x] := by
  unfold lastC
  by_cases h1 : s.length + 1 ≤ C
  · have h2 : s.length ≤ C := by omega
    simp only [List.length_append, List.length_singleton, if_pos h1, if_pos h2]
    have hrep : List.replicate (C - s.length) (0 : Int)
        = 0 :: List.replicate (C - s.length - 1) 0 := by
      have h : C - s.length = (C - s.length - 1) + 1 := by omega
      conv_lhs => rw [h]
      rw [List.replicate_succ]
    rw [hrep]
    simp only [List.cons_append, List.drop_succ_cons, List.drop_zero]
    have : C - (s.length + 1) = C - s.length - 1 := by omega
    rw [this, List.append_assoc]
  · by_cases h2 : s.length ≤ C
    · have he : s.length = C := by omega
      simp only [List.length_append, List.length_singleton, if_neg h1, if_pos h2]
      have hz : C - s.length = 0 := by omega
      have h3 : s.length + 1 - C = 1 := by omega
      rw [hz, h3]
      simp only [List.replicate_zero, List.nil_append]
      rw [List.drop_append_eq_append_drop]
      have : 1 - s.length = 0 := by omega
      rw [this]
      simp
    · simp only [List.length_append, List.length_singleton, if_neg h1, if_neg h2]
      rw [List.drop_append_eq_append_drop]
      have h3 : s.length + 1 - C ≤ s.length := by omega
      have h4 : s.length + 1 - C - s.length = 0 := by omega
      rw [h4]
      simp only [List.drop_zero]
      rw [List.drop_drop]
      have h5 : s.length + 1 - C = s.length - C + 1 := by omega
      rw [h5]

/-- Master invariant of the circular store: after appending the stream `s`
the vector length is unchanged, the physical index equals the total sample
count mod `C`, and the chronological two-piece read yields the most recent
`C` samples (zero-padded while unfilled). -/
lemma ring_inv (C : Nat) (hC : 0 < C) (s : List Int) :
    (audioCallback (initRing C) s).buf.length = C ∧
    (audioCallback (initRing C) s).bufferIndex = s.length % C ∧
    snapshotLast (audioCallback (initRing C) s) = lastC C s := by
  induction s using List.reverseRecOn with
  | nil =>
      refine ⟨by simp [audioCallback, initRing], by simp [audioCallback, initRing], ?_⟩
      simp [audioCallback, initRing, snapshotLast, lastC]
  | append_singleton s x ih =>
      obtain ⟨h1, h2, h3⟩ := ih
      have hsplit : audioCallback (initRing C) (s ++ [x])
          = pushSample (audioCallback (initRing C) s) x := by
        simp [audioCallback, List.foldl_append]
      have hi : (audioCallback (initRing C) s).bufferIndex
          < (audioCallback (initRing C) s).buf.length := by
        rw [h1, h2]
        exact Nat.mod_lt _ hC
      refine ⟨?_, ?_, ?_⟩
      · rw [hsplit, pushSample_buf_length, h1]
      · rw [hsplit]
        show ((audioCallback (initRing C) s).bufferIndex + 1)
            % (audioCallback (initRing C) s).buf.length = _
        rw [h1, h2, Nat.mod_add_mod]
        simp
      · rw [hsplit, snapshotLast_pushSample _ _ hi, h3, lastC_append C hC]

lemma getD_replicate_zero (m j : Nat) :
    (List.replicate m (0 : Int)).getD j 0 = 0 := by
  by_cases hj : j < m
  · rw [List.getD_eq_getElem _ _ (by simpa using hj)]
    simp
  · rw [List.getD_eq_default]
    simpa using hj

/-- While at most `C` samples have arrived, the store is the stream followed
by the untouched zeros of value-initialisation. -/
lemma ring_buf_eq_of_le (C : Nat) (hC : 0 < C) (s : List Int)
    (h : s.length ≤ C) :
    (audioCallback (initRing C) s).buf = s ++ List.replicate (C - s.length) 0 := by
  obtain ⟨h1, h2, h3⟩ := ring_inv C hC s
  by_cases he : s.length = C
  · have hidx : (audioCallback (initRing C) s).bufferIndex = 0 := by
      rw [h2, he, Nat.mod_self]
    have hb : snapshotLast (audioCallback (initRing C) s)
        = (audioCallback (initRing C) s).buf := by
      unfold snapshotLast
      rw [hidx]
      simp
    rw [← hb, h3]
    unfold lastC
    rw [if_pos h]
    have hz : C - s.length = 0 := by omega
    rw [hz]
    simp
  · have hlt : s.length < C := by omega
    have hidx : (audioCallback (initRing C) s).bufferIndex = s.length := by
      rw [h2, Nat.mod_eq_of_lt hlt]
    have hs : (audioCallback (initRing C) s).buf.drop s.length
        ++ (audioCallback (initRing C) s).buf.take s.length
        = List.replicate (C - s.length) 0 ++ s := by
      have hx := h3
      unfold snapshotLast at hx
      rw [hidx] at hx
      unfold lastC at hx
      rw [if_pos h] at hx
      exact hx
    have hdl : ((audioCallback (initRing C) s).buf.drop s.length).length
        = (List.replicate (C - s.length) (0 : Int)).length := by
      simp [h1]
    obtain ⟨hd, ht⟩ := List.append_inj hs hdl
    have hb : (audioCallback (initRing C) s).buf
        = (audioCallback (initRing C) s).buf.take s.length
          ++ (audioCallback (initRing C) s).buf.drop s.length :=
      (List.take_append_drop _ _).symm
    rw [hb, ht, hd]

/-- Claim C1: for a ring of capacity `C`, after appending `C + k` samples the
chronological two-piece snapshot (the copy split at the wrap boundary, as in
`checkLevelThreadFunc` lines 80-81 and the wrap branch of `saveToFile`)
returns exactly the last `C` samples appended, in append order. -/
theorem ring_wraparound_snapshot (C k : Nat) (hC : 0 < C) (s : List Int)
    (hs : s.length = C + k) :
    snapshotLast (audioCallback (initRing C) s) = s.drop k := by
  obtain ⟨-, -, h3⟩ := ring_inv C hC s
  rw [h3]
  unfold lastC
  by_cases h : s.length ≤ C
  · have hk : k = 0 := by omega
    subst hk
    rw [if_pos h]
    have hz : C - s.length = 0 := by omega
    rw [hz]
    simp
  · rw [if_neg h]
    have hk : s.length - C = k := by omega
    rw [hk]

/-- Witness for C1 at capacity 3 and stream of 5 samples. -/
theorem ring_wraparound_snapshot_witness :
    0 < 3 ∧ ([1, 2, 3, 4, 5] : List Int).length = 3 + 2 ∧
    snapshotLast (audioCallback (initRing 3) [1, 2, 3, 4, 5])
      = ([1, 2, 3, 4, 5] : List Int).drop 2 :=
  ⟨by decide, by decide,
    ring_wraparound_snapshot 3 2 (by decide) [1, 2, 3, 4, 5] (by decide)⟩

/-- Claim C6: at every instant (after any appended stream `s`) the readable
snapshot has length `C` and its most recent `min(write_cursor, C)` entries
are exactly the most recent `min(write_cursor, C)` samples of the stream;
since this holds for every `s`, it is preserved by every append. -/
theorem ring_recent_samples_readable (C : Nat) (hC : 0 < C) (s : List Int) :
    (snapshotLast (audioCallback (initRing C) s)).length = C ∧
    (snapshotLast (audioCallback (initRing C) s)).drop (C - min s.length C)
      = s.drop (s.length - min s.length C) := by
  obtain ⟨-, -, h3⟩ := ring_inv C hC s
  rw [h3]
  unfold lastC
  by_cases h : s.length ≤ C
  · rw [if_pos h]
    constructor
    · simp
      omega
    · have hm : min s.length C = s.length := by omega
      rw [hm, List.drop_append_eq_append_drop]
      simp
  · rw [if_neg h]
    have hm : min s.length C = C := by omega
    rw [hm]
    constructor
    · simp
      omega
    · simp

/-- Witness for C6 at capacity 2 and stream of 3 samples. -/
theorem ring_recent_samples_readable_witness :
    0 < 2 ∧
    ((snapshotLast (audioCallback (initRing 2) [7, 8, 9])).length = 2 ∧
      (snapshotLast (audioCallback (initRing 2) [7, 8, 9])).drop
          (2 - min ([7, 8, 9] : List Int).length 2)
        = ([7, 8, 9] : List Int).drop
            (([7, 8, 9] : List Int).length - min ([7, 8, 9] : List Int).length 2)) :=
  ⟨by decide, ring_recent_samples_readable 2 (by decide) [7, 8, 9]⟩

/-- Claim C2 is refuted by the code: no snapshot path validates its range
against a write cursor or returns an error.  With capacity 4 and the stream
`[10, 20, 30, 40, 50]`, absolute sample 0 (value 10) is already overwritten
(start index 0 < write cursor 5 - capacity 4), yet `saveToFile 0 1` happily
returns the overwritten slot's new content `[50]` instead of failing. -/
theorem saveToFile_returns_overwritten_data :
    saveToFile (audioCallback (initRing 4) [10, 20, 30, 40, 50]) 0 1 = [50] ∧
    ([50] : List Int) ≠ [10] := by
  decide

/-- Claim C10: every periodic save writes the entire fixed store of
`400 * SAMPLE_RATE * CHANNELS` samples, regardless of how many samples the
stream has delivered (also after the store has wrapped); and a save taken
before the store has filled once contains the value-initialised zeros at
every position never yet written. -/
theorem periodic_save_full_capacity_with_zero_fill (s : List Int) :
    (saveAudioData (audioCallback (initRing (BUFFER_SIZE * CHANNELS)) s)).length
      = 400 * SAMPLE_RATE * CHANNELS ∧
    (s.length ≤ BUFFER_SIZE * CHANNELS →
      ∀ i, s.length ≤ i →
        (saveAudioData
            (audioCallback (initRing (BUFFER_SIZE * CHANNELS)) s)).getD i 0
          = 0) := by
  have hC : 0 < BUFFER_SIZE * CHANNELS := by decide
  constructor
  · have hl := audioCallback_buf_length s (initRing (BUFFER_SIZE * CHANNELS))
    unfold saveAudioData
    rw [hl]
    simp [initRing, BUFFER_SIZE]
  · intro h i hi
    unfold saveAudioData
    rw [ring_buf_eq_of_le _ hC s h, List.getD_append_right _ _ _ _ hi]
    exact getD_replicate_zero _ _

/-- Witness for C10 with a single-sample stream: the full-capacity length
and, discharging the unfilled-store hypotheses, a zero at a position never
written. -/
theorem periodic_save_full_capacity_with_zero_fill_witness :
    (saveAudioData (audioCallback (initRing (BUFFER_SIZE * CHANNELS)) [5])).length
        = 400 * SAMPLE_RATE * CHANNELS ∧
    ([5] : List Int).length ≤ BUFFER_SIZE * CHANNELS ∧
    ([5] : List Int).length ≤ 7 ∧
    (saveAudioData
        (audioCallback (initRing (BUFFER_SIZE * CHANNELS)) [5])).getD 7 0 = 0 :=
  ⟨(periodic_save_full_capacity_with_zero_fill [5]).1, by decide, by decide,
    (periodic_save_full_capacity_with_zero_fill [5]).2 (by decide) 7 (by decide)⟩

/-- `float level = *std::max_element(buffer.begin(), buffer.end());` followed
by `if (level > THRESHOLD)` (`checkLevelThreadFunc` lines 78-79), for one
poll of the level-check loop over a non-empty buffer. -/
def pollFires : List Int → Bool
  | [] => false
  | h :: t => decide (THRESHOLD < t.foldl max h)

/-- Number of event saves spawned by `checkLevelThreadFunc` over a sequence
of 100 ms polls (one list entry per poll, holding the buffer content that
poll observes): the loop body (lines 74-92) keeps no debounce state, so it
spawns a save on every poll whose level exceeds the threshold. -/
def checkLevelEventCount (polls : List (List Int)) : Nat :=
  (polls.filter pollFires).length

/-- Claim C3 is refuted by `checkLevelThreadFunc`: it has no debounce, so a
signal that stays above the threshold across three consecutive polls spawns
three event saves, not one.  (Each poll during a sustained loud period sees
a buffer whose maximum exceeds `THRESHOLD`.) -/
theorem checkLevel_fires_every_loud_poll :
    checkLevelEventCount (List.replicate 3 (List.replicate 8 (27001 : Int))) = 3 ∧
    (3 : Nat) ≠ 1 := by
  decide

/-- Deque state of the main recorder: the rolling `std::deque<float> buffer`
and the shadow counter `bufferIndex` (main source lines 29-31). -/
structure DequeState where
  dq : List Int
  idx : Nat
deriving DecidableEq

/-- One iteration of `recordCallback`'s loop (lines 41-46): push the sample
at the back, then pop the front when the size exceeds the capacity. -/
def dequePush (cap : Nat) (dq : List Int) (x : Int) : List Int :=
  let d := dq ++ [x]
  if cap < d.length then d.drop 1 else d

/-- The body of `recordCallback` (lines 41-51): append the block sample by
sample, then `bufferIndex += frameCount;
if (bufferIndex >= cap) bufferIndex -= cap;`. -/
def recordCallback (cap : Nat) (st : DequeState) (block : List Int) : DequeState :=
  ⟨block.foldl (dequePush cap) st.dq,
    let bi := st.idx + block.length
    if cap ≤ bi then bi - cap else bi⟩

/-- The copy `checkLevelThreadFunc` takes on a trigger (lines 80-81): the
deque content from `bufferIndex` to the end, then from the front up to
`bufferIndex`. -/
def eventData (st : DequeState) : List Int :=
  st.dq.drop st.idx ++ st.dq.take st.idx

/-- What the event save persists (lines 84-88): `writeWavFile` is handed
`data` with size `SAMPLE_RATE * (SAVE_BEFORE_EVENT + SAVE_AFTER_EVENT)`, so
the file receives the first `w` entries of the copied data. -/
def persistedEvent (w : Nat) (st : DequeState) : List Int :=
  (eventData st).take w

/-- The event window the specification prescribes (spec wording): frames
`max(0, T - P) .. T + Q` of the absolute input stream, of length `P + Q`. -/
def specEventWindow (s : List Int) (t p q : Nat) : List Int :=
  (s.drop (t - p)).take (p + q)

/-- Claim C4 is refuted by the code: the event save never looks at a trigger
index.  With capacity 6, stream `[1..8]`, window size 4, the persisted data
is the first 4 entries of the rotated deque, `[5, 6, 7, 8]`, while the
specified window for a trigger at absolute index 5 with pre-roll 2 and
post-roll 2 is frames 3..7, `[4, 5, 6, 7]`. -/
theorem event_save_ignores_trigger_window :
    persistedEvent 4 (recordCallback 6 ⟨[], 0⟩ [1, 2, 3, 4, 5, 6, 7, 8])
      = [5, 6, 7, 8] ∧
    specEventWindow [1, 2, 3, 4, 5, 6, 7, 8] 5 2 2 = [4, 5, 6, 7] ∧
    persistedEvent 4 (recordCallback 6 ⟨[], 0⟩ [1, 2, 3, 4, 5, 6, 7, 8])
      ≠ specEventWindow [1, 2, 3, 4, 5, 6, 7, 8] 5 2 2 := by
  decide

/-- Atomic actions along each thread of the Period-Only variant. -/
inductive Action where
  | lockMtx : Nat → Action
  | unlockMtx : Nat → Action
  | writeSample : Action
  | sfWrite : Nat → Action
deriving DecidableEq

/-- The single global `std::mutex mtx` of the Period-Only source (line 26). -/
def mtxId : Nat := 0

/-- Action trace of one `audioCallback` invocation (Period-Only lines
28-40): `mtx.lock()`, one store per delivered sample, `mtx.unlock()`. -/
def audioCallbackTrace (nBufferFrames : Nat) : List Action :=
  Action.lockMtx mtxId ::
    (List.replicate nBufferFrames Action.writeSample ++ [Action.unlockMtx mtxId])

/-- Action trace of one `saveAudio` invocation (Period-Only lines 66-87):
`mtx.lock()`, `sf_write_short` of the whole store to disk, `mtx.unlock()`. -/
def saveAudioTrace : List Action :=
  [Action.lockMtx mtxId, Action.sfWrite (BUFFER_SIZE * CHANNELS),
    Action.unlockMtx mtxId]

/-- Scans a trace keeping the multiset of held locks; true when the lock `m`
is held at some file write. -/
def heldGo (m : Nat) : List Action → List Nat → Bool
  | [], _ => false
  | Action.lockMtx k :: r, held => heldGo m r (k :: held)
  | Action.unlockMtx k :: r, held => heldGo m r (held.erase k)
  | Action.sfWrite _ :: r, held => held.contains m || heldGo m r held
  | Action.writeSample :: r, held => heldGo m r held

/-- The lock `m` is held across some file write of the trace. -/
def heldDuringFileWrite (t : List Action) (m : Nat) : Bool :=
  heldGo m t []

/-- Claim C5 is refuted by the code: the audio callback (with the stream's
256-frame blocks) acquires the very mutex that `saveAudio` holds for the
whole duration of its disk write, so the producer can block for as long as
the slow consumer's file I/O takes. -/
theorem producer_blocks_on_writer_lock :
    Action.lockMtx mtxId ∈ audioCallbackTrace 256 ∧
    heldDuringFileWrite saveAudioTrace mtxId = true := by
  exact ⟨List.mem_cons_self _ _, rfl⟩

/-- Filesystem operations performed by the persistence sketches. -/
inductive FsOp where
  | openW : String → FsOp
  | writeData : String → Nat → FsOp
  | close : String → FsOp
  | rename : String → String → FsOp
deriving DecidableEq

/-- Output directory constant from the main source (line 25). -/
def OUTPUT_DIRECTORY : String := "D:/OneDrive/data/Zeev/recordings"

/-- Filesystem trace of `writeWavFile` (main source lines 56-69):
`sf_open(filename.c_str(), SFM_WRITE, ...)` on the destination name itself;
on open failure it returns having written nothing; otherwise it writes the
payload and closes.  No temporary name and no rename occur. -/
def writeWavFileTrace (filename : String) (size : Nat) (openOk : Bool) :
    List FsOp :=
  if openOk then
    [FsOp.openW filename, FsOp.writeData filename size, FsOp.close filename]
  else
    [FsOp.openW filename]

/-- The named operation touches only the given destination file (and hence
is not a rename from a temporary). -/
def touchesOnly (filename : String) : FsOp → Bool
  | FsOp.openW f => f == filename
  | FsOp.writeData f _ => f == filename
  | FsOp.close f => f == filename
  | FsOp.rename _ _ => false

/-- Counterexample to claim C7 as stated: the write trace of the event file
contains no rename from a temporary name; the job is not written
all-or-nothing via temp-and-finalize. -/
theorem writeWavFile_no_rename :
    ¬ ∃ tmp, tmp ≠ OUTPUT_DIRECTORY ++ "/event.wav" ∧
      FsOp.rename tmp (OUTPUT_DIRECTORY ++ "/event.wav")
        ∈ writeWavFileTrace (OUTPUT_DIRECTORY ++ "/event.wav") 100 true := by
  rintro ⟨tmp, -, hm⟩
  simp [writeWavFileTrace] at hm

/-- Claim C7 amended: `writeWavFile` opens the destination path directly and
writes the payload to that very name (every operation touches only the
destination; none is a rename), and a job whose open fails writes no data;
there is no temporary-name-plus-rename step, so a crash mid-write can leave
a partial file at the destination. -/
theorem writeWavFile_writes_destination_directly (filename : String)
    (size : Nat) (openOk : Bool) :
    (writeWavFileTrace filename size openOk).all (touchesOnly filename) = true ∧
    writeWavFileTrace filename size false = [FsOp.openW filename] := by
  refine ⟨?_, rfl⟩
  cases openOk <;> simp [writeWavFileTrace, touchesOnly]

/-- Number of `saveAudio` calls made by the `audioStream` loop (Period-Only
lines 54-57: sleep `INTERVAL` seconds, then save, repeatedly) during a run
of `runtime` seconds: one save per elapsed full interval. -/
def periodicSaveCount (runtime interval : Nat) : Nat :=
  runtime / interval

/-- Counterexample to claim C8 as stated: over a 900 s run the loop does
save 3 times, but each save writes the whole 400 s store — its sample count
differs from the 60 s duration the claim prescribes. -/
theorem periodic_save_ignores_duration :
    periodicSaveCount 900 INTERVAL = 3 ∧
    (saveAudioData (initRing (BUFFER_SIZE * CHANNELS))).length
      ≠ 60 * SAMPLE_RATE * CHANNELS := by
  refine ⟨by decide, ?_⟩
  simp only [saveAudioData, initRing, List.length_replicate]
  decide

/-- Claim C8 amended: on each tick of the fixed 300 s interval the snapshot
taken is the entire capacity buffer (`BUFFER_SIZE * CHANNELS` samples, i.e.
the full 400 s store), independent of any 60 s duration; a 900 s run
produces exactly 3 periodic saves. -/
theorem periodic_saves_whole_buffer (s : List Int) :
    periodicSaveCount 900 INTERVAL = 3 ∧
    (saveAudioData (audioCallback (initRing (BUFFER_SIZE * CHANNELS)) s)).length
      = BUFFER_SIZE * CHANNELS := by
  refine ⟨by decide, ?_⟩
  have hl := audioCallback_buf_length s (initRing (BUFFER_SIZE * CHANNELS))
  unfold saveAudioData
  rw [hl]
  simp [initRing]

/-- `Py_ssize_t k = lag - n2 + 1; if (k < 0) k = 0;`
(BMAR_cross_correlation.c lines 26-27); natural subtraction realises the
clamp at zero. -/
def corrLowerK (lag n2 : Nat) : Nat :=
  lag + 1 - n2

/-- The inner accumulation loop (lines 28-40): starting at `corrLowerK`, `k`
advances while `k < n1 && (lag - k) >= 0`, i.e. over
`[corrLowerK, min n1 (lag + 1))`, accumulating
`signal1[k] * signal2[lag - k]` into `sum`. -/
def corrSumAt (s1 s2 : List ℚ) (lag : Nat) : ℚ :=
  (List.range' (corrLowerK lag s2.length)
      (min s1.length (lag + 1) - corrLowerK lag s2.length)).foldl
    (fun acc k => acc + s1.getD k 0 * s2.getD (lag - k) 0) 0

/-- `cross_correlate` (lines 8-50): builds an output list of length
`n1 + n2 - 1` whose entry at `lag` is the accumulated sum. -/
def cross_correlate (s1 s2 : List ℚ) : List ℚ :=
  (List.range (s1.length + s2.length - 1)).map (corrSumAt s1 s2)

lemma foldl_add_range' (f : Nat → ℚ) (n : Nat) :
    ∀ (a : Nat) (init : ℚ),
      (List.range' a n).foldl (fun acc k => acc + f k) init
        = init + ∑ k in Finset.range n, f (a + k) := by
  induction n with
  | zero => intro a init; simp
  | succ n ih =>
      intro a init
      rw [List.range'_succ]
      simp only [List.foldl_cons]
      rw [ih (a + 1) (init + f a), Finset.sum_range_succ']
      simp only [show ∀ k, a + 1 + k = a + (k + 1) from fun k => by omega,
        Nat.add_zero]
      ring

/-- Claim C9: for non-empty inputs, `cross_correlate` returns a list of
length `n1 + n2 - 1` whose entry at position `lag` is the sum over all `k`
with `max(0, lag - n2 + 1) ≤ k ≤ min(n1 - 1, lag)` of
`signal1[k] * signal2[lag - k]`. -/
theorem cross_correlate_spec (s1 s2 : List ℚ) (h1 : 1 ≤ s1.length)
    (h2 : 1 ≤ s2.length) :
    (cross_correlate s1 s2).length = s1.length + s2.length - 1 ∧
    ∀ lag, lag < s1.length + s2.length - 1 →
      (cross_correlate s1 s2).getD lag 0
        = ∑ k in Finset.Icc (lag + 1 - s2.length) (min (s1.length - 1) lag),
            s1.getD k 0 * s2.getD (lag - k) 0 := by
  constructor
  · simp [cross_correlate]
  · intro lag hlag
    have hget : (cross_correlate s1 s2).getD lag 0 = corrSumAt s1 s2 lag := by
      unfold cross_correlate
      have hl : lag < ((List.range (s1.length + s2.length - 1)).map
          (corrSumAt s1 s2)).length := by
        simpa using hlag
      rw [List.getD_eq_getElem _ _ hl]
      simp
    rw [hget]
    unfold corrSumAt corrLowerK
    rw [foldl_add_range', zero_add]
    have hIcc : Finset.Icc (lag + 1 - s2.length) (min (s1.length - 1) lag)
        = Finset.Ico (lag + 1 - s2.length) (min s1.length (lag + 1)) := by
      rw [show min s1.length (lag + 1) = min (s1.length - 1) lag + 1 from by
        omega, Nat.Ico_succ_right]
    rw [hIcc, Finset.sum_Ico_eq_sum_range]

/-- Witness for C9 at the example inputs of the source file's own usage
notes (`signal1 = [1, 2, 3, 4]`, `signal2 = [0, 1, 0.5]`). -/
theorem cross_correlate_spec_witness :
    1 ≤ ([1, 2, 3, 4] : List ℚ).length ∧ 1 ≤ ([0, 1, 1/2] : List ℚ).length ∧
    ((cross_correlate [1, 2, 3, 4] [0, 1, 1/2]).length
        = ([1, 2, 3, 4] : List ℚ).length + ([0, 1, 1/2] : List ℚ).length - 1 ∧
      ∀ lag, lag < ([1, 2, 3, 4] : List ℚ).length
          + ([0, 1, 1/2] : List ℚ).length - 1 →
        (cross_correlate [1, 2, 3, 4] [0, 1, 1/2]).getD lag 0
          = ∑ k in Finset.Icc (lag + 1 - ([0, 1, 1/2] : List ℚ).length)
              (min (([1, 2, 3, 4] : List ℚ).length - 1) lag),
              ([1, 2, 3, 4] : List ℚ).getD k 0
                * ([0, 1, 1/2] : List ℚ).getD (lag - k) 0) :=
  ⟨by decide, by decide,
    cross_correlate_spec [1, 2, 3, 4] [0, 1, 1/2] (by decide) (by decide)⟩

end BMAR
